import Mathlib

/-!
Verification of the Ollama provider adapter (`src/provider.ts`).

The development shallowly embeds the adapter's pure logic:

* the NDJSON chat-stream decoder of `streamChat` / `processStreamLine`
  (carry-over buffer, per-line JSON parse, event emission, terminal event);
* the tool-call id generator `generateToolCallId`;
* the model-list mapping of `fetchModels`;
* the model-name resolution of `streamChat`;
* the locale resolution `localizedStringToString`.

JavaScript strings are embedded as `List Char`.  `JSON.parse` is a host
builtin and is abstracted as a parameter `parse : Str → Option OllamaChatResponse`;
all stream theorems are universally quantified over it.
-/

namespace Ollama

/-! ## Definitions -/

/-- JavaScript strings are embedded as lists of characters. -/
abbrev Str := List Char

/-- A line is blank exactly when `line.trim()` is empty, i.e. every
character is whitespace (this is the `!line.trim()` guard). -/
def isBlank (l : Str) : Bool := l.all Char.isWhitespace

/-- Embedding of `String.prototype.trim`: drop whitespace at both ends. -/
def trimStr (l : Str) : Str :=
  ((l.dropWhile Char.isWhitespace).reverse.dropWhile Char.isWhitespace).reverse

/-- Attach a character to the front of the first piece of a split result
(the piece is the head of the completed-lines list if any, else the rest). -/
def consPiece (c : Char) : List Str × Str → List Str × Str
  | ([], rest) => ([], c :: rest)
  | (p :: ps, rest) => ((c :: p) :: ps, rest)

/-- Embedding of `buffer.split('\n')` followed by `lines.pop()`: the result
is the list of complete lines (everything before the last separator) and the
trailing piece after the last newline.  The JavaScript split pieces are
exactly `(splitParts s).1 ++ [(splitParts s).2]`. -/
def splitParts : Str → List Str × Str
  | [] => ([], [])
  | c :: cs =>
    if c = '\n' then ([] :: (splitParts cs).1, (splitParts cs).2)
    else consPiece c (splitParts cs)

/-- Digit characters used by JavaScript number-to-string conversion
(decimal for template literals, lowercase base 36 for `toString(36)`). -/
def base36Digit : Nat → Char
  | 0 => '0' | 1 => '1' | 2 => '2' | 3 => '3' | 4 => '4'
  | 5 => '5' | 6 => '6' | 7 => '7' | 8 => '8' | 9 => '9'
  | 10 => 'a' | 11 => 'b' | 12 => 'c' | 13 => 'd' | 14 => 'e'
  | 15 => 'f' | 16 => 'g' | 17 => 'h' | 18 => 'i' | 19 => 'j'
  | 20 => 'k' | 21 => 'l' | 22 => 'm' | 23 => 'n' | 24 => 'o'
  | 25 => 'p' | 26 => 'q' | 27 => 'r' | 28 => 's' | 29 => 't'
  | 30 => 'u' | 31 => 'v' | 32 => 'w' | 33 => 'x' | 34 => 'y'
  | 35 => 'z' | _ => '0'

/-- Numeric value of a base-36 digit character. -/
def digitVal (c : Char) : Nat :=
  if 97 ≤ c.toNat then c.toNat - 87 else c.toNat - 48

/-- Accumulator loop of `Number.prototype.toString` with base 36. -/
def toBase36Rec (n : Nat) (acc : Str) : Str :=
  if h : n = 0 then acc
  else toBase36Rec (n / 36) (base36Digit (n % 36) :: acc)
termination_by n
decreasing_by exact Nat.div_lt_self (Nat.pos_of_ne_zero h) (by norm_num)

/-- Embedding of `n.toString(36)` on natural numbers. -/
def toBase36 (n : Nat) : Str :=
  if n = 0 then ['0'] else toBase36Rec n []

/-- Accumulator loop of decimal number-to-string conversion. -/
def toBase10Rec (n : Nat) (acc : Str) : Str :=
  if h : n = 0 then acc
  else toBase10Rec (n / 10) (base36Digit (n % 10) :: acc)
termination_by n
decreasing_by exact Nat.div_lt_self (Nat.pos_of_ne_zero h) (by norm_num)

/-- Embedding of the decimal rendering a template literal performs on a
nonnegative integer. -/
def toBase10 (n : Nat) : Str :=
  if n = 0 then ['0'] else toBase10Rec n []

/-- Value of a base-36 digit string, used to invert `toBase36`. -/
def val36 (l : Str) : Nat := l.foldl (fun a c => a * 36 + digitVal c) 0

/-- The value of `Number.MAX_SAFE_INTEGER`. -/
def MAX_SAFE_INTEGER : Nat := 2 ^ 53 - 1

/-- The literal piece of the generated id before the timestamp. -/
def callTag : Str := ['c', 'a', 'l', 'l', '_']

/-- The id string built by the template literal in `generateToolCallId`:
the tag, the decimal of `Date.now()`, an underscore, then the counter in
base 36. -/
def mkToolCallId (ts counter : Nat) : Str :=
  callTag ++ toBase10 ts ++ '_' :: toBase36 counter

/-- State of the id generator: the module-level `toolCallCounter` plus an
abstract clock giving the successive values `Date.now()` returns. -/
structure GenState where
  counter : Nat
  clock : List Nat
deriving DecidableEq, Repr

/-- Embedding of `generateToolCallId`: increment the counter, reset it to 1
if it reached `Number.MAX_SAFE_INTEGER`, and format the id from the current
time and the counter. -/
def generateToolCallId (g : GenState) : Str × GenState :=
  let c1 := g.counter + 1
  let c2 := if MAX_SAFE_INTEGER ≤ c1 then 1 else c1
  (mkToolCallId (g.clock.headD 0) c2, ⟨c2, g.clock.tail⟩)

/-- The ids produced by `n` successive calls of the generator. -/
def idsFrom (g : GenState) : Nat → List Str
  | 0 => []
  | n + 1 =>
    (generateToolCallId g).1 :: idsFrom (generateToolCallId g).2 n

/-- Tool-call arguments: a JSON object, embedded as an association list of
string keys to opaque string renderings (the adapter only passes the object
through). -/
abbrev Args := List (Str × Str)

/-- Embedding of `OllamaToolCall`. -/
structure OllamaToolCallFunction where
  name : Str
  arguments : Args
deriving DecidableEq, Repr

/-- Embedding of `OllamaToolCall` (the wrapper holding `function`). -/
structure OllamaToolCall where
  function : OllamaToolCallFunction
deriving DecidableEq, Repr

/-- Embedding of the response message: `content` is a string (an absent
field behaves like the empty string under the truthiness test), `thinking`
is optional, `tool_calls` is a list (an absent field behaves like the empty
list under the `length > 0` test). -/
structure OllamaChatMessageResponse where
  content : Str
  thinking : Option Str
  tool_calls : List OllamaToolCall
deriving DecidableEq, Repr

/-- Embedding of `OllamaChatResponse`, restricted to the fields the decoder
reads: the optional-chained `message`, the `done` flag and the two usage
counters. -/
structure OllamaChatResponse where
  message : Option OllamaChatMessageResponse
  done : Bool
  prompt_eval_count : Option Nat
  eval_count : Option Nat
deriving DecidableEq, Repr

/-- Embedding of the host-facing `StreamEvent` union. -/
inductive StreamEvent
  | thinking (text : Str)
  | content (text : Str)
  | tool_start (name : Str) (input : Args) (toolCallId : Str)
  | done (usage : Option (Nat × Nat))
  | error (message : Str)
deriving DecidableEq, Repr

/-- A terminal event is a `done` or an `error`. -/
def isTerminalB : StreamEvent → Bool
  | .done _ => true
  | .error _ => true
  | _ => false

/-- Recognizer for `tool_start` events. -/
def isToolStartB : StreamEvent → Bool
  | .tool_start _ _ _ => true
  | _ => false

/-- The `for (const toolCall of data.message.tool_calls)` loop: one
`tool_start` event per tool call, each with a freshly generated id. -/
def emitToolStarts (g : GenState) : List OllamaToolCall → List StreamEvent × GenState
  | [] => ([], g)
  | tc :: rest =>
    let idg := generateToolCallId g
    let tail := emitToolStarts idg.2 rest
    (StreamEvent.tool_start tc.function.name tc.function.arguments idg.1 :: tail.1, tail.2)

/-- The `thinking` event emitted for a parsed object, if any
(`if (data.message?.thinking)`). -/
def thinkingEvents (data : OllamaChatResponse) : List StreamEvent :=
  match data.message with
  | some m =>
    match m.thinking with
    | some t => if t.isEmpty then [] else [.thinking t]
    | none => []
  | none => []

/-- The `content` event emitted for a parsed object, if any
(`if (data.message?.content)`). -/
def contentEvents (data : OllamaChatResponse) : List StreamEvent :=
  match data.message with
  | some m => if m.content.isEmpty then [] else [.content m.content]
  | none => []

/-- Embedding of the body of `processStreamLine` after a successful
`JSON.parse`: emit the optional `thinking` and `content` events; when the
`done` flag is set, additionally emit `tool_start` events for the tool
calls and return the parsed object as the terminal response. -/
def processStreamLineParsed (g : GenState) (data : OllamaChatResponse) :
    List StreamEvent × Option OllamaChatResponse × GenState :=
  let hd := thinkingEvents data ++ contentEvents data
  if data.done then
    let tool :=
      match data.message with
      | some m => if m.tool_calls.isEmpty then ([], g) else emitToolStarts g m.tool_calls
      | none => ([], g)
    (hd ++ tool.1, some data, tool.2)
  else
    (hd, none, g)

/-- Embedding of `processStreamLine`: parse failure logs a warning and
returns no events and no terminal response. -/
def processStreamLine (parse : Str → Option OllamaChatResponse) (g : GenState)
    (line : Str) : List StreamEvent × Option OllamaChatResponse × GenState :=
  match parse line with
  | some data => processStreamLineParsed g data
  | none => ([], none, g)

/-- The part of the mutable state of one `streamChat` invocation touched
by line processing: the recorded `finalResponse` and the id-generator
state.  The carry-over `buffer` is threaded separately, mirroring the two
distinct local variables of the source. -/
structure LineState where
  finalResponse : Option OllamaChatResponse
  gen : GenState
deriving DecidableEq, Repr

/-- One iteration of the `for (const line of lines)` loop: skip blank
lines, otherwise process the line and record a non-null result as the
final response. -/
def stepLine (parse : Str → Option OllamaChatResponse) (st : LineState)
    (line : Str) : LineState × List StreamEvent :=
  if isBlank line then (st, [])
  else
    let r := processStreamLine parse st.gen line
    (⟨match r.2.1 with
      | some d => some d
      | none => st.finalResponse, r.2.2⟩,
      r.1)

/-- Process a list of complete lines in order, accumulating events. -/
def processLines (parse : Str → Option OllamaChatResponse) (st : LineState) :
    List Str → LineState × List StreamEvent
  | [] => (st, [])
  | l :: ls =>
    let r1 := stepLine parse st l
    let r2 := processLines parse r1.1 ls
    (r2.1, r1.2 ++ r2.2)

/-- Embedding of one iteration of `for await (const chunk of stream)`:
append the chunk to the buffer, split on newline, process every complete
line, and keep the trailing piece as the new buffer. -/
def processChunk (parse : Str → Option OllamaChatResponse) (st : LineState)
    (buffer : Str) (chunk : Str) : (LineState × Str) × List StreamEvent :=
  let parts := splitParts (buffer ++ chunk)
  let r := processLines parse st parts.1
  ((r.1, parts.2), r.2)

/-- Process a whole sequence of received chunks. -/
def runChunks (parse : Str → Option OllamaChatResponse) (st : LineState)
    (buffer : Str) : List Str → (LineState × Str) × List StreamEvent
  | [] => ((st, buffer), [])
  | c :: cs =>
    let r1 := processChunk parse st buffer c
    let r2 := runChunks parse r1.1.1 r1.1.2 cs
    (r2.1, r1.2 ++ r2.2)

/-- Embedding of the `if (buffer.trim())` block after the chunk loop: the
remaining buffer is split once more and each non-blank line processed. -/
def flushBuffer (parse : Str → Option OllamaChatResponse) (st : LineState)
    (buffer : Str) : LineState × List StreamEvent :=
  if isBlank buffer then (st, [])
  else
    let parts := splitParts buffer
    processLines parse st (parts.1 ++ [parts.2])

/-- The whole decoding phase of one successful `streamChat` invocation:
the chunk loop, starting from an empty buffer and no terminal response,
followed by the final buffer flush. -/
def chatRun (parse : Str → Option OllamaChatResponse) (g : GenState)
    (chunks : List Str) : LineState × List StreamEvent :=
  let r1 := runChunks parse ⟨none, g⟩ [] chunks
  let r2 := flushBuffer parse r1.1.1 r1.1.2
  (r2.1, r1.2 ++ r2.2)

/-- The usage payload attached to `done`: present only when both
`prompt_eval_count` and `eval_count` were present on the terminal object. -/
def usageOf : Option OllamaChatResponse → Option (Nat × Nat)
  | some f =>
    match f.prompt_eval_count, f.eval_count with
    | some p, some e => some (p, e)
    | _, _ => none
  | none => none

/-- How one invocation of `streamChat` terminates: either the chunk stream
is consumed to the end, or an error is thrown before the first chunk or
while awaiting a later chunk (HTTP failure or network error), carrying a
message.  In the failure case the chunks processed before the throw have
already been decoded. -/
inductive ChatOutcome
  | success (chunks : List Str)
  | failure (chunks : List Str) (msg : Str)
deriving DecidableEq, Repr

/-- The full event sequence of one `streamChat` invocation consumed to
completion: the decoded events followed by exactly one `done` carrying the
usage of the recorded terminal object, or, on a thrown error, the events
decoded so far followed by exactly one `error`. -/
def streamChatEvents (parse : Str → Option OllamaChatResponse) (g : GenState) :
    ChatOutcome → List StreamEvent
  | .success chunks =>
    let r := chatRun parse g chunks
    r.2 ++ [.done (usageOf r.1.finalResponse)]
  | .failure chunks msg =>
    (runChunks parse ⟨none, g⟩ [] chunks).2 ++ [.error msg]

/-- Embedding of `OllamaModelDetails`, restricted to the field read. -/
structure OllamaModelDetails where
  parameter_size : Option Str
deriving DecidableEq, Repr

/-- Embedding of `OllamaModel`, restricted to the fields read. -/
structure OllamaModel where
  name : Str
  details : Option OllamaModelDetails
deriving DecidableEq, Repr

/-- Embedding of the parsed `{models: [...]}` body. -/
structure OllamaTagsResponse where
  models : List OllamaModel
deriving DecidableEq, Repr

/-- Embedding of the host-facing `ModelInfo` record. -/
structure ModelInfo where
  id : Str
  name : Str
  description : Option Str
deriving DecidableEq, Repr

/-- The literal suffix appended to a parameter size. -/
def parametersSuffix : Str := (" parameters").toList

/-- The mapping `fetchModels` applies to each upstream model entry.  The
description uses the truthiness test of `model.details?.parameter_size`:
it is present exactly when `details` exists and carries a non-empty
`parameter_size`. -/
def modelInfoOfOllama (m : OllamaModel) : ModelInfo :=
  { id := m.name
    name := m.name
    description :=
      match m.details with
      | some d =>
        match d.parameter_size with
        | some ps => if ps.isEmpty then none else some (ps ++ parametersSuffix)
        | none => none
      | none => none }

/-- The upstream HTTP response to `GET {url}/api/tags` as the adapter sees
it: the status line, and the result of `response.json()` (an `Except`
whose error is the thrown parse-failure message). -/
structure TagsFetchResponse where
  status : Nat
  statusText : Str
  body : Except Str OllamaTagsResponse
deriving Repr

/-- The `Response.ok` flag of the fetch API: status in the 2xx range. -/
def respOk (status : Nat) : Bool := 200 ≤ status && status < 300

/-- The literal head of the error message thrown on a non-ok status. -/
def failedFetchPre : Str := ("Failed to fetch models: ").toList

/-- Embedding of `fetchModels`: fail with a status-carrying message on a
non-ok response, propagate a JSON parse failure, otherwise map every
upstream entry to a `ModelInfo`.  The catch block logs and rethrows, so
errors propagate unchanged and no partial list is returned. -/
def fetchModels (r : TagsFetchResponse) : Except Str (List ModelInfo) :=
  if !(respOk r.status) then
    .error (failedFetchPre ++ toBase10 r.status ++ ' ' :: r.statusText)
  else
    match r.body with
    | .error e => .error e
    | .ok data => .ok (data.models.map modelInfoOfOllama)

/-- Modelled from the spec: the constant `DEFAULT_MODEL` is imported from
`constants.ts`, which is not part of the sources; the repository README
documents the default model as `llama3.2`. -/
def DEFAULT_MODEL : Str := ("llama3.2").toList

/-- Provider settings record, restricted to the fields relevant to model
resolution (`options.settings`). -/
structure ChatSettings where
  url : Option Str
  defaultModel : Option Str
  thinking : Option Str
deriving DecidableEq, Repr

/-- The slice of `ChatOptions` relevant to model resolution. -/
structure ChatOptionsModel where
  model : Option Str
  settings : ChatSettings
deriving DecidableEq, Repr

/-- Embedding of `const model = options.model || DEFAULT_MODEL` in
`streamChat` (`||` takes the right operand when the left is absent or the
empty string). -/
def resolveModel (o : ChatOptionsModel) : Str :=
  match o.model with
  | some m => if m.isEmpty then DEFAULT_MODEL else m
  | none => DEFAULT_MODEL

/-- The model resolution as the specification words it, for comparison:
the caller's override if provided, else the configured default model from
settings, else the fixed fallback model name. -/
def specResolveModel (o : ChatOptionsModel) : Str :=
  match o.model with
  | some m =>
    if m.isEmpty then
      match o.settings.defaultModel with
      | some d => if d.isEmpty then DEFAULT_MODEL else d
      | none => DEFAULT_MODEL
    else m
  | none =>
    match o.settings.defaultModel with
    | some d => if d.isEmpty then DEFAULT_MODEL else d
    | none => DEFAULT_MODEL

/-- A `LocalizedString`: either a plain string or a record keyed by locale
tags, in insertion order. -/
inductive LocalizedString
  | str (s : Str)
  | record (entries : List (Str × Str))
deriving DecidableEq, Repr

/-- The fixed fallback text. -/
def DEFAULT_LOCALIZED_FALLBACK : Str := ("[missing localized string]").toList

/-- The default locale key. -/
def enKey : Str := ['e', 'n']

/-- JavaScript property lookup `value['en']` on the record: the value of
the first entry with the given key. -/
def lookupKey (es : List (Str × Str)) (k : Str) : Option Str :=
  match es.find? (fun p => p.1 == k) with
  | some p => some p.2
  | none => none

/-- Embedding of `localizedStringToString`: a plain string is trimmed
(with the fallback replacing an empty result); a record prefers the
trimmed `en` entry when non-empty, else the first entry whose trimmed
value is non-empty, else the fallback. -/
def localizedStringToString : LocalizedString → Str
  | .str s =>
    let t := trimStr s
    if t.isEmpty then DEFAULT_LOCALIZED_FALLBACK else t
  | .record es =>
    let en :=
      match lookupKey es enKey with
      | some v => trimStr v
      | none => []
    if !en.isEmpty then en
    else
      match es.find? (fun p => !(trimStr p.2).isEmpty) with
      | some p => trimStr p.2
      | none => DEFAULT_LOCALIZED_FALLBACK

/-! ## Theorems -/

theorem splitParts_cons (c : Char) (t : Str) :
    splitParts (c :: t)
      = if c = '\n' then ([] :: (splitParts t).1, (splitParts t).2)
        else consPiece c (splitParts t) := rfl

theorem splitParts_no_newline (l : Str) (h : '\n' ∉ l) : splitParts l = ([], l) := by
  induction l with
  | nil => rfl
  | cons c cs ih =>
    simp only [List.mem_cons, not_or] at h
    rw [splitParts_cons, if_neg (fun he => h.1 he.symm), ih h.2]
    rfl

theorem splitParts_rest_no_newline (l : Str) : '\n' ∉ (splitParts l).2 := by
  induction l with
  | nil => simp [splitParts]
  | cons c cs ih =>
    rcases hsp : splitParts cs with ⟨comp, rest⟩
    rw [hsp] at ih
    by_cases hc : c = '\n'
    · rw [splitParts_cons, if_pos hc, hsp]
      exact ih
    · rw [splitParts_cons, if_neg hc, hsp]
      cases comp with
      | nil =>
        simp only [consPiece, List.mem_cons, not_or]
        exact ⟨fun he => hc he.symm, ih⟩
      | cons p ps =>
        simpa only [consPiece] using ih

theorem splitParts_append (a b : Str) :
    splitParts (a ++ b)
      = ((splitParts a).1 ++ (splitParts ((splitParts a).2 ++ b)).1,
         (splitParts ((splitParts a).2 ++ b)).2) := by
  induction a with
  | nil => simp [splitParts]
  | cons c cs ih =>
    rw [List.cons_append, splitParts_cons, splitParts_cons]
    by_cases hc : c = '\n'
    · rw [if_pos hc, if_pos hc, ih]
      simp
    · rw [if_neg hc, if_neg hc]
      rcases h1 : splitParts cs with ⟨comp, rest⟩
      rw [h1] at ih
      rw [ih]
      cases comp with
      | nil =>
        simp only [consPiece, List.nil_append]
        rw [List.cons_append, splitParts_cons, if_neg hc]
        rcases h2 : splitParts (rest ++ b) with ⟨comp2, rest2⟩
        cases comp2 <;> simp [consPiece]
      | cons p ps =>
        simp [consPiece, List.cons_append]

theorem digitVal_base36Digit (d : Nat) (h : d < 36) : digitVal (base36Digit d) = d := by
  interval_cases d <;> decide

theorem base36Digit_ne_underscore (d : Nat) : base36Digit d ≠ '_' := by
  unfold base36Digit
  split <;> decide

theorem foldl_val36_from (l : Str) (a : Nat) :
    l.foldl (fun a c => a * 36 + digitVal c) a = a * 36 ^ l.length + val36 l := by
  induction l generalizing a with
  | nil => simp [val36]
  | cons c cs ih =>
    simp only [List.foldl_cons, List.length_cons, val36]
    rw [ih (a * 36 + digitVal c), ih (0 * 36 + digitVal c)]
    ring

theorem val36_toBase36Rec (n : Nat) :
    ∀ acc : Str, val36 (toBase36Rec n acc) = n * 36 ^ acc.length + val36 acc := by
  induction n using Nat.strong_induction_on with
  | _ n ih =>
    intro acc
    rw [toBase36Rec]
    by_cases h : n = 0
    · simp [h]
    · rw [dif_neg h]
      have hlt : n / 36 < n := Nat.div_lt_self (Nat.pos_of_ne_zero h) (by norm_num)
      rw [ih (n / 36) hlt (base36Digit (n % 36) :: acc)]
      have hto : val36 (base36Digit (n % 36) :: acc)
          = digitVal (base36Digit (n % 36)) * 36 ^ acc.length + val36 acc := by
        simp only [val36, List.foldl_cons]
        rw [foldl_val36_from]
        simp [val36]
      rw [hto, digitVal_base36Digit (n % 36) (Nat.mod_lt n (by norm_num))]
      simp only [List.length_cons, pow_succ]
      conv_rhs => rw [show n = 36 * (n / 36) + n % 36 from (Nat.div_add_mod n 36).symm]
      ring

theorem val36_toBase36 (n : Nat) : val36 (toBase36 n) = n := by
  unfold toBase36
  by_cases h : n = 0
  · subst h; decide
  · rw [if_neg h, val36_toBase36Rec n []]
    simp [val36]

theorem toBase36_injective (m n : Nat) (h : toBase36 m = toBase36 n) : m = n := by
  have := congrArg val36 h
  rwa [val36_toBase36, val36_toBase36] at this

theorem toBase36Rec_no_underscore (n : Nat) :
    ∀ acc : Str, '_' ∉ acc → '_' ∉ toBase36Rec n acc := by
  induction n using Nat.strong_induction_on with
  | _ n ih =>
    intro acc hacc
    rw [toBase36Rec]
    by_cases h : n = 0
    · simpa [h] using hacc
    · rw [dif_neg h]
      have hlt : n / 36 < n := Nat.div_lt_self (Nat.pos_of_ne_zero h) (by norm_num)
      refine ih (n / 36) hlt _ ?_
      simp only [List.mem_cons, not_or]
      exact ⟨fun he => base36Digit_ne_underscore (n % 36) he.symm, hacc⟩

theorem toBase36_no_underscore (n : Nat) : '_' ∉ toBase36 n := by
  unfold toBase36
  by_cases h : n = 0
  · simp [h]
  · rw [if_neg h]
    exact toBase36Rec_no_underscore n [] (by simp)

theorem sep_split (l1 : Str) (r1 l2 r2 : Str)
    (h : l1 ++ '_' :: r1 = l2 ++ '_' :: r2)
    (h1 : '_' ∉ l1) (h2 : '_' ∉ l2) : l1 = l2 := by
  induction l1 generalizing l2 with
  | nil =>
    cases l2 with
    | nil => rfl
    | cons d ds =>
      simp only [List.nil_append, List.cons_append, List.cons.injEq] at h
      exact absurd (show ('_' : Char) ∈ d :: ds by
        rw [h.1]
        exact List.mem_cons_self d ds) h2
  | cons c cs ih =>
    cases l2 with
    | nil =>
      simp only [List.cons_append, List.nil_append, List.cons.injEq] at h
      exact absurd (show ('_' : Char) ∈ c :: cs by
        rw [← h.1]
        exact List.mem_cons_self c cs) h1
    | cons d ds =>
      simp only [List.cons_append, List.cons.injEq] at h
      simp only [List.mem_cons, not_or] at h1 h2
      rw [h.1, ih ds h.2 (fun hm => h1.2 hm) (fun hm => h2.2 hm)]

theorem mkToolCallId_counter_inj (ts1 c1 ts2 c2 : Nat)
    (h : mkToolCallId ts1 c1 = mkToolCallId ts2 c2) : c1 = c2 := by
  unfold mkToolCallId at h
  have hr := congrArg List.reverse h
  have hshape : ∀ ts c, (callTag ++ toBase10 ts ++ '_' :: toBase36 c).reverse
      = (toBase36 c).reverse ++ '_' :: (callTag ++ toBase10 ts).reverse := by
    intro ts c
    simp [List.reverse_append, List.append_assoc]
  rw [hshape, hshape] at hr
  have hrev : (toBase36 c1).reverse = (toBase36 c2).reverse :=
    sep_split _ _ _ _ hr
      (fun hm => toBase36_no_underscore c1 (List.mem_reverse.mp hm))
      (fun hm => toBase36_no_underscore c2 (List.mem_reverse.mp hm))
  exact toBase36_injective c1 c2 (List.reverse_injective hrev)

theorem idsFrom_length (n : Nat) : ∀ g : GenState, (idsFrom g n).length = n := by
  induction n with
  | zero => intro g; rfl
  | succ m ih => intro g; simp [idsFrom, ih]

theorem generateToolCallId_counter (g : GenState)
    (h : g.counter + 1 < MAX_SAFE_INTEGER) :
    (generateToolCallId g).2.counter = g.counter + 1 ∧
      (generateToolCallId g).1 = mkToolCallId (g.clock.headD 0) (g.counter + 1) := by
  unfold generateToolCallId
  simp only []
  rw [if_neg (show ¬ MAX_SAFE_INTEGER ≤ g.counter + 1 by omega)]
  exact ⟨rfl, rfl⟩

theorem idsFrom_mem (n : Nat) :
    ∀ (g : GenState) (id : Str), g.counter + n < MAX_SAFE_INTEGER →
      id ∈ idsFrom g n →
      ∃ ts k, id = mkToolCallId ts k ∧ g.counter < k ∧ k ≤ g.counter + n := by
  induction n with
  | zero => intro g id _ hmem; cases hmem
  | succ m ih =>
    intro g id hlt hmem
    have hc : g.counter + 1 < MAX_SAFE_INTEGER := by omega
    obtain ⟨hcounter, hid⟩ := generateToolCallId_counter g hc
    rcases List.mem_cons.mp hmem with hhead | htail
    · exact ⟨g.clock.headD 0, g.counter + 1, hhead.trans hid, by omega, by omega⟩
    · obtain ⟨ts, k, hk, hk1, hk2⟩ :=
        ih (generateToolCallId g).2 id (by rw [hcounter]; omega) htail
      rw [hcounter] at hk1 hk2
      exact ⟨ts, k, hk, by omega, by omega⟩

theorem idsFrom_nodup (n : Nat) :
    ∀ g : GenState, g.counter + n < MAX_SAFE_INTEGER → (idsFrom g n).Nodup := by
  induction n with
  | zero => intro g _; exact List.nodup_nil
  | succ m ih =>
    intro g hlt
    have hc : g.counter + 1 < MAX_SAFE_INTEGER := by omega
    obtain ⟨hcounter, hid⟩ := generateToolCallId_counter g hc
    refine List.nodup_cons.mpr ⟨?_, ih _ (by rw [hcounter]; omega)⟩
    intro hmem
    obtain ⟨ts, k, hk, hk1, hk2⟩ :=
      idsFrom_mem m (generateToolCallId g).2 _ (by rw [hcounter]; omega) hmem
    rw [hid] at hk
    have := mkToolCallId_counter_inj _ _ _ _ hk
    rw [hcounter] at hk1
    omega

theorem processLines_append (parse : Str → Option OllamaChatResponse)
    (l1 l2 : List Str) : ∀ st : LineState,
    processLines parse st (l1 ++ l2)
      = ((processLines parse (processLines parse st l1).1 l2).1,
        (processLines parse st l1).2
          ++ (processLines parse (processLines parse st l1).1 l2).2) := by
  induction l1 with
  | nil => intro st; simp [processLines]
  | cons l ls ih =>
    intro st
    simp only [List.cons_append, processLines, List.append_eq]
    rw [ih]
    simp [List.append_assoc]

theorem processChunk_def (parse : Str → Option OllamaChatResponse)
    (st : LineState) (buffer chunk : Str) :
    processChunk parse st buffer chunk
      = (((processLines parse st (splitParts (buffer ++ chunk)).1).1,
          (splitParts (buffer ++ chunk)).2),
        (processLines parse st (splitParts (buffer ++ chunk)).1).2) := rfl

theorem processChunk_append (parse : Str → Option OllamaChatResponse)
    (st : LineState) (buffer c d : Str) :
    processChunk parse st buffer (c ++ d)
      = ((processChunk parse (processChunk parse st buffer c).1.1
            (processChunk parse st buffer c).1.2 d).1,
        (processChunk parse st buffer c).2
          ++ (processChunk parse (processChunk parse st buffer c).1.1
              (processChunk parse st buffer c).1.2 d).2) := by
  simp only [processChunk_def]
  rw [← List.append_assoc, splitParts_append (buffer ++ c) d, processLines_append]

theorem runChunks_one (parse : Str → Option OllamaChatResponse)
    (st : LineState) (buffer : Str) (c : Str) :
    runChunks parse st buffer [c] = processChunk parse st buffer c := by
  simp [runChunks]

theorem runChunks_flatten (parse : Str → Option OllamaChatResponse)
    (chunks : List Str) : ∀ (st : LineState) (buffer : Str), '\n' ∉ buffer →
    runChunks parse st buffer chunks = processChunk parse st buffer chunks.flatten := by
  induction chunks with
  | nil =>
    intro st buffer h
    have hsp : splitParts (buffer ++ List.flatten []) = ([], buffer) := by
      simpa using splitParts_no_newline buffer h
    show ((st, buffer), []) = processChunk parse st buffer (List.flatten [])
    rw [processChunk_def, hsp]
    rfl
  | cons c cs ih =>
    intro st buffer h
    have hnb : '\n' ∉ (processChunk parse st buffer c).1.2 := by
      rw [processChunk_def]
      exact splitParts_rest_no_newline _
    have hstep : runChunks parse st buffer (c :: cs)
        = ((runChunks parse (processChunk parse st buffer c).1.1
              (processChunk parse st buffer c).1.2 cs).1,
          (processChunk parse st buffer c).2
            ++ (runChunks parse (processChunk parse st buffer c).1.1
                (processChunk parse st buffer c).1.2 cs).2) := by
      simp only [runChunks]
    rw [hstep, ih _ _ hnb]
    have hflat : List.flatten (c :: cs) = c ++ List.flatten cs := by simp
    rw [hflat, processChunk_append]

theorem chatRun_flatten (parse : Str → Option OllamaChatResponse) (g : GenState)
    (chunks : List Str) : chatRun parse g chunks = chatRun parse g [chunks.flatten] := by
  unfold chatRun
  rw [runChunks_flatten parse chunks ⟨none, g⟩ [] (by simp),
    runChunks_flatten parse [chunks.flatten] ⟨none, g⟩ [] (by simp)]
  simp

theorem emitToolStarts_toolStart (tcs : List OllamaToolCall) :
    ∀ (g : GenState) (e : StreamEvent), e ∈ (emitToolStarts g tcs).1 →
      isToolStartB e = true ∧ isTerminalB e = false := by
  induction tcs with
  | nil => intro g e he; cases he
  | cons tc rest ih =>
    intro g e he
    rcases List.mem_cons.mp he with h | h
    · subst h; exact ⟨rfl, rfl⟩
    · exact ih _ e h

theorem thinkingEvents_shape (data : OllamaChatResponse) :
    ∀ e ∈ thinkingEvents data, isTerminalB e = false ∧ isToolStartB e = false := by
  obtain ⟨msg, dn, pec, ec⟩ := data
  rcases msg with _ | m
  · intro e he; cases he
  · rcases hm : m.thinking with _ | t
    · intro e he
      simp [thinkingEvents, hm] at he
    · intro e he
      simp only [thinkingEvents, hm] at he
      by_cases ht : t.isEmpty
      · simp [ht] at he
      · simp [ht] at he
        subst he
        exact ⟨rfl, rfl⟩

theorem contentEvents_shape (data : OllamaChatResponse) :
    ∀ e ∈ contentEvents data, isTerminalB e = false ∧ isToolStartB e = false := by
  obtain ⟨msg, dn, pec, ec⟩ := data
  rcases msg with _ | m
  · intro e he; cases he
  · intro e he
    simp only [contentEvents] at he
    by_cases hc : m.content.isEmpty
    · simp [hc] at he
    · simp [hc] at he
      subst he
      exact ⟨rfl, rfl⟩

theorem processStreamLineParsed_nonterminal (g : GenState) (data : OllamaChatResponse) :
    ∀ e ∈ (processStreamLineParsed g data).1, isTerminalB e = false := by
  intro e he
  unfold processStreamLineParsed at he
  by_cases hd : data.done
  · simp only [hd, if_true, List.mem_append] at he
    rcases he with (he | he) | he
    · exact (thinkingEvents_shape data e he).1
    · exact (contentEvents_shape data e he).1
    · rcases hm : data.message with _ | m
      · rw [hm] at he; cases he
      · rw [hm] at he
        by_cases ht : m.tool_calls.isEmpty
        · simp [ht] at he
        · simp only [ht, if_false, Bool.false_eq_true] at he
          exact (emitToolStarts_toolStart m.tool_calls g e he).2
  · simp only [hd, if_false, Bool.false_eq_true, List.mem_append] at he
    rcases he with he | he
    · exact (thinkingEvents_shape data e he).1
    · exact (contentEvents_shape data e he).1

theorem processStreamLine_nonterminal (parse : Str → Option OllamaChatResponse)
    (g : GenState) (line : Str) :
    ∀ e ∈ (processStreamLine parse g line).1, isTerminalB e = false := by
  intro e he
  unfold processStreamLine at he
  rcases hp : parse line with _ | data
  · rw [hp] at he; cases he
  · rw [hp] at he
    exact processStreamLineParsed_nonterminal g data e he

theorem stepLine_nonterminal (parse : Str → Option OllamaChatResponse)
    (st : LineState) (line : Str) :
    ∀ e ∈ (stepLine parse st line).2, isTerminalB e = false := by
  intro e he
  unfold stepLine at he
  by_cases hb : isBlank line
  · simp [hb] at he
  · simp only [hb, Bool.false_eq_true, if_false] at he
    exact processStreamLine_nonterminal parse st.gen line e he

theorem processLines_nonterminal (parse : Str → Option OllamaChatResponse)
    (ls : List Str) : ∀ st : LineState,
    ∀ e ∈ (processLines parse st ls).2, isTerminalB e = false := by
  induction ls with
  | nil => intro st e he; cases he
  | cons l rest ih =>
    intro st e he
    simp only [processLines, List.mem_append] at he
    rcases he with he | he
    · exact stepLine_nonterminal parse st l e he
    · exact ih _ e he

theorem processChunk_nonterminal (parse : Str → Option OllamaChatResponse)
    (st : LineState) (buffer chunk : Str) :
    ∀ e ∈ (processChunk parse st buffer chunk).2, isTerminalB e = false := by
  intro e he
  rw [processChunk_def] at he
  exact processLines_nonterminal parse _ st e he

theorem runChunks_nonterminal (parse : Str → Option OllamaChatResponse)
    (chunks : List Str) : ∀ (st : LineState) (buffer : Str),
    ∀ e ∈ (runChunks parse st buffer chunks).2, isTerminalB e = false := by
  induction chunks with
  | nil => intro st buffer e he; cases he
  | cons c cs ih =>
    intro st buffer e he
    simp only [runChunks, List.mem_append] at he
    rcases he with he | he
    · exact processChunk_nonterminal parse st buffer c e he
    · exact ih _ _ e he

theorem flushBuffer_nonterminal (parse : Str → Option OllamaChatResponse)
    (st : LineState) (buffer : Str) :
    ∀ e ∈ (flushBuffer parse st buffer).2, isTerminalB e = false := by
  intro e he
  unfold flushBuffer at he
  by_cases hb : isBlank buffer
  · simp [hb] at he
  · simp only [hb, Bool.false_eq_true, if_false] at he
    exact processLines_nonterminal parse _ st e he

theorem chatRun_nonterminal (parse : Str → Option OllamaChatResponse)
    (g : GenState) (chunks : List Str) :
    ∀ e ∈ (chatRun parse g chunks).2, isTerminalB e = false := by
  intro e he
  unfold chatRun at he
  simp only [List.mem_append] at he
  rcases he with he | he
  · exact runChunks_nonterminal parse chunks _ _ e he
  · exact flushBuffer_nonterminal parse _ _ e he

theorem stepLine_parse_none (parse : Str → Option OllamaChatResponse)
    (st : LineState) (l : Str) (h : parse l = none) :
    stepLine parse st l = (st, []) := by
  unfold stepLine
  by_cases hb : isBlank l
  · simp [hb]
  · simp [hb, processStreamLine, h]

theorem processLines_parse_none (parse : Str → Option OllamaChatResponse)
    (h : ∀ l, parse l = none) (ls : List Str) : ∀ st : LineState,
    processLines parse st ls = (st, []) := by
  induction ls with
  | nil => intro st; rfl
  | cons l rest ih =>
    intro st
    simp only [processLines]
    rw [stepLine_parse_none parse st l (h l), ih st]
    rfl

theorem runChunks_parse_none (parse : Str → Option OllamaChatResponse)
    (h : ∀ l, parse l = none) (chunks : List Str) : ∀ (st : LineState) (buffer : Str),
    (runChunks parse st buffer chunks).1.1 = st ∧
      (runChunks parse st buffer chunks).2 = [] := by
  induction chunks with
  | nil => intro st buffer; exact ⟨rfl, rfl⟩
  | cons c cs ih =>
    intro st buffer
    simp only [runChunks, processChunk_def]
    rw [processLines_parse_none parse h]
    simpa using ih st (splitParts (buffer ++ c)).2

theorem flushBuffer_parse_none (parse : Str → Option OllamaChatResponse)
    (h : ∀ l, parse l = none) (st : LineState) (buffer : Str) :
    flushBuffer parse st buffer = (st, []) := by
  unfold flushBuffer
  by_cases hb : isBlank buffer
  · simp [hb]
  · simp [hb, processLines_parse_none parse h]

theorem chatRun_parse_none (parse : Str → Option OllamaChatResponse)
    (h : ∀ l, parse l = none) (g : GenState) (chunks : List Str) :
    (chatRun parse g chunks).1.finalResponse = none ∧
      (chatRun parse g chunks).2 = [] := by
  simp only [chatRun]
  obtain ⟨h1, h2⟩ := runChunks_parse_none parse h chunks ⟨none, g⟩ []
  rw [h1, h2, flushBuffer_parse_none parse h]
  exact ⟨rfl, rfl⟩

theorem emitToolStarts_eq (tcs : List OllamaToolCall) : ∀ g : GenState,
    (emitToolStarts g tcs).1
      = List.zipWith
          (fun tc id => StreamEvent.tool_start tc.function.name tc.function.arguments id)
          tcs (idsFrom g tcs.length) := by
  induction tcs with
  | nil => intro g; rfl
  | cons tc rest ih =>
    intro g
    simp only [emitToolStarts, idsFrom, List.length_cons, List.zipWith_cons_cons]
    rw [ih]

theorem processStreamLineParsed_events (g : GenState) (data : OllamaChatResponse)
    (msg : OllamaChatMessageResponse) (h1 : data.done = true)
    (h2 : data.message = some msg) :
    (processStreamLineParsed g data).1
      = thinkingEvents data ++ contentEvents data
          ++ (emitToolStarts g msg.tool_calls).1 := by
  unfold processStreamLineParsed
  rw [h1, if_pos rfl, h2]
  by_cases ht : msg.tool_calls.isEmpty
  · have : msg.tool_calls = [] := by simpa [List.isEmpty_iff] using ht
    simp [ht, this, emitToolStarts]
  · simp [ht]

theorem filter_toolStart_parsed (g : GenState) (data : OllamaChatResponse)
    (msg : OllamaChatMessageResponse) (h1 : data.done = true)
    (h2 : data.message = some msg) :
    ((processStreamLineParsed g data).1).filter isToolStartB
      = (emitToolStarts g msg.tool_calls).1 := by
  rw [processStreamLineParsed_events g data msg h1 h2]
  rw [List.filter_append, List.filter_append]
  have hth : (thinkingEvents data).filter isToolStartB = [] := by
    rw [List.filter_eq_nil_iff]
    intro e he
    rw [(thinkingEvents_shape data e he).2]
    simp
  have hco : (contentEvents data).filter isToolStartB = [] := by
    rw [List.filter_eq_nil_iff]
    intro e he
    rw [(contentEvents_shape data e he).2]
    simp
  have hto : ((emitToolStarts g msg.tool_calls).1).filter isToolStartB
      = (emitToolStarts g msg.tool_calls).1 := by
    rw [List.filter_eq_self]
    intro e he
    exact (emitToolStarts_toolStart msg.tool_calls g e he).1
  rw [hth, hco, hto]
  rfl

/-- C1: for every chat invocation of `streamChat` consumed to completion
(whether the chunk stream succeeds or an error is thrown at any point),
the emitted event sequence ends in exactly one terminal event (`done` or
`error`), and every earlier event is non-terminal (`thinking`, `content`
or `tool_start`). -/
theorem C1_exactly_one_terminal_event (parse : Str → Option OllamaChatResponse)
    (g : GenState) (outcome : ChatOutcome) :
    ∃ body term, streamChatEvents parse g outcome = body ++ [term]
      ∧ isTerminalB term = true
      ∧ body.all (fun e => !(isTerminalB e)) = true := by
  cases outcome with
  | success chunks =>
    refine ⟨(chatRun parse g chunks).2,
      .done (usageOf (chatRun parse g chunks).1.finalResponse), rfl, rfl, ?_⟩
    rw [List.all_eq_true]
    intro e he
    rw [chatRun_nonterminal parse g chunks e he]
    rfl
  | failure chunks msg =>
    refine ⟨(runChunks parse ⟨none, g⟩ [] chunks).2, .error msg, rfl, rfl, ?_⟩
    rw [List.all_eq_true]
    intro e he
    rw [runChunks_nonterminal parse chunks ⟨none, g⟩ [] e he]
    rfl

/-- C2: the carry-over buffer of the chat decoder is correct.  First, the
events of a successful stream depend only on the concatenation of the
chunks: any chunk sequence produces the same result as the single chunk
obtained by concatenating them (the per-chunk split into complete lines
plus the kept trailing piece is the definition `processChunk`).  Second, a
chunk containing no newline emits no event at all: it is merely appended
to the buffer, so a line split mid-JSON produces nothing until the rest of
the line arrives. -/
theorem C2_buffer_carry_over (parse : Str → Option OllamaChatResponse)
    (g : GenState) (chunks : List Str) (st : LineState) (buffer chunk : Str) :
    streamChatEvents parse g (.success chunks)
        = streamChatEvents parse g (.success [chunks.flatten])
      ∧ ('\n' ∉ buffer → '\n' ∉ chunk →
          processChunk parse st buffer chunk = ((st, buffer ++ chunk), [])) := by
  constructor
  · simp only [streamChatEvents]
    rw [chatRun_flatten parse g chunks]
  · intro h1 h2
    have hno : '\n' ∉ buffer ++ chunk := by
      intro hm
      rcases List.mem_append.mp hm with hm | hm
      · exact h1 hm
      · exact h2 hm
    rw [processChunk_def, splitParts_no_newline _ hno]
    rfl

/-- C3: a complete line that fails to parse is discarded on its own: the
whole line sequence with the malformed line removed produces exactly the
same state and events, so the valid lines before and after it still emit
their events and the stream is not aborted.  (A blank line is skipped
before the parse attempt and the same equation holds.) -/
theorem C3_malformed_line_skipped (parse : Str → Option OllamaChatResponse)
    (st : LineState) (pre post : List Str) (bad : Str)
    (h : parse bad = none) :
    processLines parse st (pre ++ bad :: post)
      = processLines parse st (pre ++ post) := by
  rw [processLines_append, processLines_append]
  have hmid : processLines parse (processLines parse st pre).1 (bad :: post)
      = processLines parse (processLines parse st pre).1 post := by
    simp only [processLines]
    rw [stepLine_parse_none parse _ bad h]
    simp
  rw [hmid]

/-- C4: a parsed terminal object (`done` true) with message `msg` yields,
among its emitted events, exactly one `tool_start` per entry of
`msg.tool_calls`, in order, carrying the freshly generated ids
`idsFrom g n`; those ids are pairwise distinct provided the process-wide
counter does not wrap around `Number.MAX_SAFE_INTEGER` during the batch,
and none of the emitted events is terminal, so they all precede the final
`done` of the invocation (which C1 shows is the last event). -/
theorem C4_tool_start_per_tool_call (g : GenState) (data : OllamaChatResponse)
    (msg : OllamaChatMessageResponse) (h1 : data.done = true)
    (h2 : data.message = some msg)
    (hn : g.counter + msg.tool_calls.length < MAX_SAFE_INTEGER) :
    ((processStreamLineParsed g data).1).filter isToolStartB
        = List.zipWith
            (fun tc id => StreamEvent.tool_start tc.function.name tc.function.arguments id)
            msg.tool_calls (idsFrom g msg.tool_calls.length)
      ∧ (idsFrom g msg.tool_calls.length).length = msg.tool_calls.length
      ∧ (idsFrom g msg.tool_calls.length).Nodup
      ∧ ∀ e ∈ (processStreamLineParsed g data).1, isTerminalB e = false :=
  ⟨by rw [filter_toolStart_parsed g data msg h1 h2, emitToolStarts_eq],
    idsFrom_length _ _,
    idsFrom_nodup _ g hn,
    processStreamLineParsed_nonterminal g data⟩

/-- C5: a non-erroring stream ends with exactly one `done` event; its
usage payload is `usageOf` of the recorded terminal object, which is
present if and only if a terminal object was observed carrying both
`prompt_eval_count` and `eval_count` (never a partial payload); and if
every line fails to parse, the invocation still emits exactly `done` with
no usage. -/
theorem C5_done_usage (parse : Str → Option OllamaChatResponse)
    (g : GenState) (chunks : List Str) :
    (streamChatEvents parse g (.success chunks)).getLast?
        = some (.done (usageOf (chatRun parse g chunks).1.finalResponse))
      ∧ (∀ (fo : Option OllamaChatResponse) (p e : Nat),
          usageOf fo = some (p, e)
            ↔ ∃ f, fo = some f
                ∧ f.prompt_eval_count = some p ∧ f.eval_count = some e)
      ∧ ((∀ l, parse l = none) →
          streamChatEvents parse g (.success chunks) = [.done none]) := by
  refine ⟨?_, ?_, ?_⟩
  · simp only [streamChatEvents]
    rw [List.getLast?_concat]
  · intro fo p e
    rcases fo with _ | f
    · simp [usageOf]
    · rcases f with ⟨m, d, pec, ec⟩
      rcases pec with _ | p2 <;> rcases ec with _ | e2 <;>
        simp [usageOf, and_assoc, eq_comm]
  · intro h
    obtain ⟨hfin, hev⟩ := chatRun_parse_none parse h g chunks
    simp only [streamChatEvents]
    rw [hfin, hev]
    rfl

/-- C6 (amended): `streamChat` resolves the model name by a two-level
fallback only — the caller's override when provided and non-empty, else
the fixed default model name; the configured default model in the settings
record is not consulted. -/
theorem C6_model_two_level_fallback (o : ChatOptionsModel) :
    (∀ m, o.model = some m → m.isEmpty = false → resolveModel o = m)
      ∧ (o.model = none → resolveModel o = DEFAULT_MODEL)
      ∧ (o.model = some [] → resolveModel o = DEFAULT_MODEL)
      ∧ (∀ s : ChatSettings, resolveModel o = resolveModel ⟨o.model, s⟩) := by
  refine ⟨?_, ?_, ?_, ?_⟩
  · intro m hm he
    simp [resolveModel, hm, he]
  · intro hm
    simp [resolveModel, hm]
  · intro hm
    simp [resolveModel, hm]
  · intro s
    simp [resolveModel]

/-- C6 counterexample: with no caller override and a configured default
model present in the settings, the code resolves the model to the fixed
fallback, not to the configured default — the middle level of the claimed
three-level fallback does not exist in `streamChat`. -/
theorem C6_counterexample_settings_ignored :
    resolveModel ⟨none, ⟨none, some (("custom-model").toList), none⟩⟩ = DEFAULT_MODEL
      ∧ specResolveModel ⟨none, ⟨none, some (("custom-model").toList), none⟩⟩
          = ("custom-model").toList
      ∧ DEFAULT_MODEL ≠ ("custom-model").toList := by
  refine ⟨rfl, by decide, by decide⟩

/-- C7: for a well-formed tags body, `fetchModels` returns one `ModelInfo`
per upstream entry, in order, with both `id` and `name` equal to the
upstream `name`, and with the description equal to the human-readable
parameter-size string exactly when the entry's details carry a non-empty
`parameter_size` (the truthiness test of the source), absent otherwise. -/
theorem C7_listModels_mapping (r : TagsFetchResponse) (data : OllamaTagsResponse)
    (hok : respOk r.status = true) (hbody : r.body = .ok data) :
    fetchModels r = .ok (data.models.map modelInfoOfOllama)
      ∧ (data.models.map modelInfoOfOllama).length = data.models.length
      ∧ ∀ (i : Nat) (hi : i < (data.models.map modelInfoOfOllama).length)
          (hm : i < data.models.length),
          ((data.models.map modelInfoOfOllama).get ⟨i, hi⟩).id
              = (data.models.get ⟨i, hm⟩).name
          ∧ ((data.models.map modelInfoOfOllama).get ⟨i, hi⟩).name
              = (data.models.get ⟨i, hm⟩).name
          ∧ (∀ d ps, (data.models.get ⟨i, hm⟩).details = some d →
              d.parameter_size = some ps → ps.isEmpty = false →
              ((data.models.map modelInfoOfOllama).get ⟨i, hi⟩).description
                = some (ps ++ parametersSuffix))
          ∧ ((data.models.get ⟨i, hm⟩).details = none →
              ((data.models.map modelInfoOfOllama).get ⟨i, hi⟩).description = none)
          ∧ (∀ d, (data.models.get ⟨i, hm⟩).details = some d →
              d.parameter_size = none →
              ((data.models.map modelInfoOfOllama).get ⟨i, hi⟩).description = none)
          ∧ (∀ d, (data.models.get ⟨i, hm⟩).details = some d →
              d.parameter_size = some [] →
              ((data.models.map modelInfoOfOllama).get ⟨i, hi⟩).description = none) := by
  refine ⟨?_, by simp, ?_⟩
  · simp [fetchModels, hok, hbody]
  · intro i hi hm
    simp only [List.get_eq_getElem]
    have hget : (data.models.map modelInfoOfOllama)[i] = modelInfoOfOllama data.models[i] := by
      simp
    rw [hget]
    unfold modelInfoOfOllama
    refine ⟨rfl, rfl, ?_, ?_, ?_, ?_⟩
    · intro d ps hd hps he
      have hne : ps ≠ [] := by
        intro hnil
        rw [hnil] at he
        cases he
      simp [hd, hps, hne]
    · intro hd
      simp [hd]
    · intro d hd hps
      simp [hd, hps]
    · intro d hd hps
      simp [hd, hps]

/-- C8: a non-2xx status makes `fetchModels` fail with no partial list;
the error message contains the decimal rendering of the status code. -/
theorem C8_listModels_http_error (r : TagsFetchResponse)
    (h : ¬(200 ≤ r.status ∧ r.status < 300)) :
    fetchModels r = .error (failedFetchPre ++ toBase10 r.status ++ ' ' :: r.statusText)
      ∧ ∃ pre post,
          failedFetchPre ++ toBase10 r.status ++ ' ' :: r.statusText
            = pre ++ toBase10 r.status ++ post := by
  have hok : respOk r.status = false := by
    simp only [respOk, Bool.and_eq_false_iff, decide_eq_false_iff_not]
    omega
  refine ⟨?_, failedFetchPre, ' ' :: r.statusText, by simp⟩
  simp [fetchModels, hok]

/-- C9: the record case of `localizedStringToString` is the claimed pure
resolution: the trimmed default-locale (`en`) entry when present and
non-empty; otherwise the first entry whose trimmed value is non-empty;
otherwise the fixed fallback string. -/
theorem C9_locale_resolution (es : List (Str × Str)) :
    (∀ v, lookupKey es enKey = some v → (trimStr v).isEmpty = false →
        localizedStringToString (.record es) = trimStr v)
      ∧ ((∀ v, lookupKey es enKey = some v → (trimStr v).isEmpty = true) →
          (∀ p, es.find? (fun q => !(trimStr q.2).isEmpty) = some p →
              localizedStringToString (.record es) = trimStr p.2)
            ∧ (es.find? (fun q => !(trimStr q.2).isEmpty) = none →
                localizedStringToString (.record es) = DEFAULT_LOCALIZED_FALLBACK)) := by
  constructor
  · intro v hv hne
    simp [localizedStringToString, hv, hne]
  · intro hblank
    rcases hlk : lookupKey es enKey with _ | v
    · constructor
      · intro p hp
        simp [localizedStringToString, hlk, hp]
      · intro hp
        simp [localizedStringToString, hlk, hp]
    · have hemp : (trimStr v).isEmpty = true := hblank v hlk
      constructor
      · intro p hp
        simp [localizedStringToString, hlk, hemp, hp]
      · intro hp
        simp [localizedStringToString, hlk, hemp, hp]

/-- C10: a parsed object whose `done` flag is false never emits a
`tool_start` event, even when its message carries a non-empty
`tool_calls` array. -/
theorem C10_no_tool_start_when_not_done (g : GenState)
    (data : OllamaChatResponse) (h : data.done = false) :
    ∀ e ∈ (processStreamLineParsed g data).1, isToolStartB e = false := by
  intro e he
  unfold processStreamLineParsed at he
  rw [h] at he
  simp only [Bool.false_eq_true, if_false, List.mem_append] at he
  rcases he with he | he
  · exact (thinkingEvents_shape data e he).2
  · exact (contentEvents_shape data e he).2

/-- Witness for C2 at a concrete input: two chunks versus their
concatenation give the same events, and a newline-free chunk emits nothing
and extends the buffer. -/
theorem C2_buffer_carry_over_witness :
    streamChatEvents (fun _ => none) ⟨0, []⟩ (.success [['a'], ['b', '\n']])
        = streamChatEvents (fun _ => none) ⟨0, []⟩ (.success [['a', 'b', '\n']])
      ∧ processChunk (fun _ => none) ⟨none, ⟨0, []⟩⟩ ['x'] ['y']
          = ((⟨none, ⟨0, []⟩⟩, ['x', 'y']), []) := by
  have h := C2_buffer_carry_over (fun _ => none) ⟨0, []⟩ [['a'], ['b', '\n']]
    ⟨none, ⟨0, []⟩⟩ ['x'] ['y']
  exact ⟨h.1, h.2 (by decide) (by decide)⟩

/-- Witness for C3 at a concrete input: a malformed line between two valid
lines is dropped without affecting the rest. -/
theorem C3_malformed_line_skipped_witness :
    processLines
        (fun l => if l = ['a']
          then some (⟨some ⟨['h', 'i'], none, []⟩, false, none, none⟩ : OllamaChatResponse)
          else none)
        ⟨none, ⟨0, []⟩⟩ ([['a']] ++ ['Z'] :: [['a']])
      = processLines
        (fun l => if l = ['a']
          then some (⟨some ⟨['h', 'i'], none, []⟩, false, none, none⟩ : OllamaChatResponse)
          else none)
        ⟨none, ⟨0, []⟩⟩ ([['a']] ++ [['a']]) :=
  C3_malformed_line_skipped _ _ _ _ _ (by decide)

/-- Witness for C4 at a concrete input: a terminal object with two tool
calls produces exactly two `tool_start` events with distinct ids. -/
theorem C4_tool_start_per_tool_call_witness :
    ((processStreamLineParsed ⟨0, [5, 7]⟩
        ⟨some ⟨[], none, [⟨⟨['f'], []⟩⟩, ⟨⟨['g'], []⟩⟩]⟩, true, none, none⟩).1).filter
        isToolStartB
        = [StreamEvent.tool_start ['f'] [] (mkToolCallId 5 1),
          StreamEvent.tool_start ['g'] [] (mkToolCallId 7 2)]
      ∧ mkToolCallId 5 1 ≠ mkToolCallId 7 2 := by
  have h := C4_tool_start_per_tool_call ⟨0, [5, 7]⟩
    ⟨some ⟨[], none, [⟨⟨['f'], []⟩⟩, ⟨⟨['g'], []⟩⟩]⟩, true, none, none⟩
    ⟨[], none, [⟨⟨['f'], []⟩⟩, ⟨⟨['g'], []⟩⟩]⟩ rfl rfl
    (by norm_num [MAX_SAFE_INTEGER])
  have hids : idsFrom (⟨0, [5, 7]⟩ : GenState) 2
      = [mkToolCallId 5 1, mkToolCallId 7 2] := by
    norm_num [idsFrom, generateToolCallId, MAX_SAFE_INTEGER]
  constructor
  · have h1 := h.1
    simpa [hids] using h1
  · intro heq
    have hnd := h.2.2.1
    simp only [List.length_cons, List.length_nil] at hnd
    rw [hids, heq] at hnd
    simp at hnd

/-- Witness for C5 at a concrete input: when every line is malformed, the
stream still ends with a single `done` and no usage. -/
theorem C5_done_usage_witness :
    streamChatEvents (fun _ => none) ⟨0, []⟩ (.success [['x']]) = [.done none] :=
  (C5_done_usage (fun _ => none) ⟨0, []⟩ [['x']]).2.2 (fun _ => rfl)

/-- Witness for the amended C6 at concrete inputs. -/
theorem C6_model_two_level_fallback_witness :
    resolveModel ⟨some ['m'], ⟨none, none, none⟩⟩ = ['m']
      ∧ resolveModel ⟨none, ⟨none, none, none⟩⟩ = DEFAULT_MODEL :=
  ⟨(C6_model_two_level_fallback ⟨some ['m'], ⟨none, none, none⟩⟩).1 ['m'] rfl rfl,
    (C6_model_two_level_fallback ⟨none, ⟨none, none, none⟩⟩).2.1 rfl⟩

/-- Witness for C7 at a concrete input: a body with two models, one with a
parameter size and one without. -/
theorem C7_listModels_mapping_witness :
    fetchModels ⟨200, [],
        .ok ⟨[⟨['m'], some ⟨some ['7', 'B']⟩⟩, ⟨['n'], none⟩]⟩⟩
      = .ok [⟨['m'], ['m'], some (('7' : Char) :: 'B' :: parametersSuffix)⟩,
          ⟨['n'], ['n'], none⟩] :=
  (C7_listModels_mapping ⟨200, [],
      .ok ⟨[⟨['m'], some ⟨some ['7', 'B']⟩⟩, ⟨['n'], none⟩]⟩⟩
    ⟨[⟨['m'], some ⟨some ['7', 'B']⟩⟩, ⟨['n'], none⟩]⟩ rfl rfl).1

/-- Witness for C8 at a concrete input: a 500 response fails with the
status code in the message. -/
theorem C8_listModels_http_error_witness :
    fetchModels ⟨500, ['S'], .ok ⟨[]⟩⟩
      = .error (failedFetchPre ++ toBase10 500 ++ [' ', 'S']) :=
  (C8_listModels_http_error ⟨500, ['S'], .ok ⟨[]⟩⟩ (by decide)).1

/-- Witness for C9 at a concrete input: the `en` entry wins when present
and non-blank. -/
theorem C9_locale_resolution_witness :
    localizedStringToString (.record [(['e', 'n'], [' ', 'h', 'i'])]) = ['h', 'i'] := by
  have h := (C9_locale_resolution [(['e', 'n'], [' ', 'h', 'i'])]).1
    [' ', 'h', 'i'] (by decide) (by decide)
  exact h

/-- Witness for C10 at a concrete input: a non-terminal object carrying a
tool call emits no `tool_start`. -/
theorem C10_no_tool_start_when_not_done_witness :
    ((processStreamLineParsed ⟨0, []⟩
        ⟨some ⟨['h'], none, [⟨⟨['f'], []⟩⟩]⟩, false, none, none⟩).1).all
        (fun e => !(isToolStartB e)) = true := by
  have h := C10_no_tool_start_when_not_done ⟨0, []⟩
    ⟨some ⟨['h'], none, [⟨⟨['f'], []⟩⟩]⟩, false, none, none⟩ rfl
  rw [List.all_eq_true]
  intro e he
  rw [h e he]
  rfl

end Ollama
